import Mathlib

/-!
Shallow embedding of `pbr/version.py` (class `SemanticVersion`): the version
value type, its constructor, parser (`from_pip_string`), comparator
(`__eq__` / `__lt__` and friends), serializers (`brief_string`,
`release_string`, `debian_string`, `rpm_string`) and `decrement`.

Python strings are modelled as `List Char` internally and `String` at the
interface; Python `None` as `Option.none`; Python truthiness of the optional
fields is modelled explicitly (`truthyStr`, `truthyNat`).  Fallible Python
code (raising `ValueError` / `TypeError` / `IndexError`) is modelled with
`Except String`.
-/

/-- Model of Python `str.isdigit` for a single character (ASCII range,
which is all this module feeds it). -/
def pyIsDigit (c : Char) : Bool :=
  decide (48 ≤ c.toNat) && decide (c.toNat ≤ 57)

/-- Model of Python `str.isalpha` for a single character (ASCII range). -/
def pyIsAlpha (c : Char) : Bool :=
  (decide (65 ≤ c.toNat) && decide (c.toNat ≤ 90))
    || (decide (97 ≤ c.toNat) && decide (c.toNat ≤ 122))

/-- Numeric value of a decimal digit character. -/
def digitVal (c : Char) : Nat := c.toNat - 48

/-- Value of a decimal digit string, most significant digit first. -/
def natFromDigits (cs : List Char) : Nat :=
  cs.foldl (fun a c => 10 * a + digitVal c) 0

/-- Model of Python `int(s)` on the non-negative inputs this module feeds
it: succeeds exactly on non-empty all-digit strings (`int` raises
`ValueError` otherwise, modelled as `none`). -/
def pyIntNat? (cs : List Char) : Option Nat :=
  if !cs.isEmpty && cs.all pyIsDigit then some (natFromDigits cs) else none

/-- The decimal digit character for `d < 10`. -/
def digitChar (d : Nat) : Char :=
  if d = 0 then '0' else if d = 1 then '1' else if d = 2 then '2'
  else if d = 3 then '3' else if d = 4 then '4' else if d = 5 then '5'
  else if d = 6 then '6' else if d = 7 then '7' else if d = 8 then '8'
  else '9'

/-- Fuel-driven digit accumulator behind `pyNatStr` (structural recursion
on the fuel so that it reduces definitionally). -/
def pyNatStrAux : Nat → Nat → List Char → List Char
  | 0, _, acc => acc
  | fuel + 1, n, acc =>
    if n < 10 then digitChar n :: acc
    else pyNatStrAux fuel (n / 10) (digitChar (n % 10) :: acc)

/-- Model of Python `str(n)` for a non-negative integer `n`. -/
def pyNatStr (n : Nat) : List Char := pyNatStrAux (n + 1) n []

/-- Recursive characterization of `pyNatStr` used for reasoning. -/
def natDigits (n : Nat) : List Char :=
  if _h : n < 10 then [digitChar n]
  else natDigits (n / 10) ++ [digitChar (n % 10)]
  termination_by n
  decreasing_by exact Nat.div_lt_self (by omega) (by omega)

/-- Model of Python `s.split('.')`: splits on every occurrence of `'.'`,
so the result is always non-empty and `"".split('.') == [""]`. -/
def splitDots : List Char → List (List Char)
  | [] => [[]]
  | c :: cs =>
    if c = '.' then [] :: splitDots cs
    else
      match splitDots cs with
      | [] => [[c]]
      | s :: rest => (c :: s) :: rest

/-- The version value type: the seven fields stored by
`SemanticVersion.__init__` (`_major`, `_minor`, `_patch`,
`_prerelease_type`, `_prerelease`, `_dev_count`, `_githash`).
Python `None` is `none`. -/
structure SemanticVersion where
  major : Nat
  minor : Nat
  patch : Nat
  prerelease_type : Option String
  prerelease : Option Nat
  dev_count : Option Nat
  githash : Option String
  deriving DecidableEq, Repr

/-- Python truthiness of an optional string field (`None` and `""` are
falsy). -/
def truthyStr : Option String → Bool
  | none => false
  | some s => !s.isEmpty

/-- Python truthiness of an optional integer field (`None` and `0` are
falsy). -/
def truthyNat : Option Nat → Bool
  | none => false
  | some n => n != 0

/-- Model of `SemanticVersion.__init__`: defaults the prerelease serial to
`0` when a (truthy) prerelease type is given with a falsy serial, and
raises `ValueError` when both `prerelease_type` and `dev_count` are not
`None`. -/
def SemanticVersion.make (major minor patch : Nat) (prerelease_type : Option String)
    (prerelease : Option Nat) (dev_count : Option Nat) (githash : Option String) :
    Except String SemanticVersion :=
  let prerelease :=
    if truthyStr prerelease_type && !truthyNat prerelease then some 0 else prerelease
  if prerelease_type.isSome && dev_count.isSome then
    .error "invalid version: cannot have prerelease and dev strings"
  else
    .ok ⟨major, minor, patch, prerelease_type, prerelease, dev_count, githash⟩

/-- Model of Python string `<` (lexicographic by code point; a strict
prefix is smaller). -/
def strLtChars : List Char → List Char → Bool
  | [], [] => false
  | [], _ :: _ => true
  | _ :: _, [] => false
  | a :: as, b :: bs =>
    if a < b then true else if b < a then false else strLtChars as bs

/-- Model of the Python tuple comparison
`(prerelease_type_a, prerelease_a) < (prerelease_type_b, prerelease_b)`
performed inside `__lt__` for two prerelease versions: the first components
are compared as strings; on a tie, the serials are compared, where
`None == None` gives `False` but `None < int` raises `TypeError`. -/
def pyTupleLt (ta : String) (sa : Option Nat) (tb : String) (sb : Option Nat) :
    Except String Bool :=
  if ta = tb then
    if sa = sb then .ok false
    else
      match sa, sb with
      | some x, some y => .ok (decide (x < y))
      | _, _ => .error "unorderable types: NoneType and int"
  else .ok (strLtChars ta.data tb.data)

/-- Lexicographic `<` on the two `(major, minor, patch)` integer tuples
built by `__lt__`. -/
def lexLt3 (a b : Nat × Nat × Nat) : Bool :=
  decide (a.1 < b.1)
    || (a.1 == b.1
        && (decide (a.2.1 < b.2.1)
            || (a.2.1 == b.2.1 && decide (a.2.2 < b.2.2))))

/-- Model of `SemanticVersion.__lt__` applied to another `SemanticVersion`
(the `isinstance` guard lives in `SemanticVersion.ltPy` below).  `TypeError`
is modelled as `.error`. -/
def SemanticVersion.lt (a b : SemanticVersion) : Except String Bool :=
  if lexLt3 (a.major, a.minor, a.patch) (b.major, b.minor, b.patch) then .ok true
  else if lexLt3 (b.major, b.minor, b.patch) (a.major, a.minor, a.patch) then .ok false
  else if truthyStr a.prerelease_type then
    if truthyStr b.prerelease_type then
      pyTupleLt (a.prerelease_type.getD "") a.prerelease
        (b.prerelease_type.getD "") b.prerelease
    else if truthyNat b.dev_count then
      .error "ordering pre-release with dev builds is undefined"
    else .ok true
  else if truthyNat a.dev_count then
    if truthyNat b.dev_count then
      if a.dev_count.getD 0 < b.dev_count.getD 0 then .ok true
      else if b.dev_count.getD 0 < a.dev_count.getD 0 then .ok false
      else if a.githash = b.githash then .ok false
      else .error "same version with different hash has no defined order"
    else if truthyStr b.prerelease_type then
      .error "ordering pre-release with dev builds is undefined"
    else .ok true
  else .ok false

/-- Three-way comparison derived from `__lt__` the way a caller obtains a
full ordering from the rich-comparison methods: `a < b`, else `b < a`,
else equal-rank. -/
def pyCompare (a b : SemanticVersion) : Except String Ordering :=
  match a.lt b with
  | .error e => .error e
  | .ok true => .ok .lt
  | .ok false =>
    match b.lt a with
    | .error e => .error e
    | .ok true => .ok .gt
    | .ok false => .ok .eq

/-- A Python value handed to one of the comparison dunder methods: either a
`SemanticVersion` or some other object (for which `isinstance(other,
SemanticVersion)` is false). -/
inductive PyObj where
  | semver (v : SemanticVersion)
  | nonVersion (tag : String)
  deriving DecidableEq, Repr

/-- Model of `SemanticVersion.__eq__`: `False` for a non-version, else
structural equality of `__dict__` (all seven fields). -/
def SemanticVersion.eqPy (v : SemanticVersion) (o : PyObj) : Bool :=
  match o with
  | .semver w => decide (v = w)
  | .nonVersion _ => false

/-- Model of `SemanticVersion.__ne__` (`not self == other`). -/
def SemanticVersion.nePy (v : SemanticVersion) (o : PyObj) : Bool :=
  !(v.eqPy o)

/-- Model of `SemanticVersion.__lt__` including the `isinstance` guard,
which raises `TypeError` on a non-version. -/
def SemanticVersion.ltPy (v : SemanticVersion) (o : PyObj) : Except String Bool :=
  match o with
  | .semver w => v.lt w
  | .nonVersion _ => .error "ordering to non-SemanticVersion is undefined"

/-- Model of `SemanticVersion.__le__` (`self == other or self < other`,
with Python short-circuiting `or`). -/
def SemanticVersion.lePy (v : SemanticVersion) (o : PyObj) : Except String Bool :=
  if v.eqPy o then .ok true
  else v.ltPy o

/-- Model of `SemanticVersion.__ge__` (`not self < other`). -/
def SemanticVersion.gePy (v : SemanticVersion) (o : PyObj) : Except String Bool :=
  (v.ltPy o).map (!·)

/-- Model of `SemanticVersion.__gt__` (`not self <= other`). -/
def SemanticVersion.gtPy (v : SemanticVersion) (o : PyObj) : Except String Bool :=
  (v.lePy o).map (!·)

/-- Model of `SemanticVersion.decrement`: the triple immediately preceding
`major.minor.patch` under the fixed 9999 rollover ceiling, with all
qualifier fields dropped (the source builds the result with the bare
three-argument constructor, whose optional fields default to `None`). -/
def SemanticVersion.decrement (v : SemanticVersion) : SemanticVersion :=
  if v.patch != 0 then
    ⟨v.major, v.minor, v.patch - 1, none, none, none, none⟩
  else if v.minor != 0 then
    ⟨v.major, v.minor - 1, 9999, none, none, none, none⟩
  else if v.major != 0 then
    ⟨v.major - 1, 9999, 9999, none, none, none, none⟩
  else
    ⟨0, 9999, 9999, none, none, none, none⟩

/-- Characters of `SemanticVersion.brief_string`
(`"%s.%s.%s" % (major, minor, patch)`). -/
def SemanticVersion.briefChars (v : SemanticVersion) : List Char :=
  pyNatStr v.major ++ '.' :: pyNatStr v.minor ++ '.' :: pyNatStr v.patch

/-- Model of `SemanticVersion.brief_string`. -/
def SemanticVersion.brief_string (v : SemanticVersion) : String :=
  ⟨v.briefChars⟩

/-- Python `str` of an optional integer field (`str(None) == "None"`). -/
def pyOptNatStr : Option Nat → List Char
  | some n => pyNatStr n
  | none => ['N', 'o', 'n', 'e']

/-- Python `str` of an optional string field (`str(None) == "None"`). -/
def pyOptStrStr : Option String → List Char
  | some s => s.data
  | none => ['N', 'o', 'n', 'e']

/-- Model of `SemanticVersion._long_version`: the one parameterized
renderer behind the canonical, Debian and RPM forms.  A `pre_separator` of
`none` models Python `None` (rollover mode): with a prerelease or dev
qualifier present, the rendering starts from `decrement().brief_string()`
and the separator is forced to `"."`. -/
def SemanticVersion._long_version (v : SemanticVersion) (pre_separator : Option (List Char))
    (hash_separator : List Char) (rc_marker : List Char := []) : List Char :=
  let rollover := (truthyStr v.prerelease_type || truthyNat v.dev_count)
    && pre_separator.isNone
  let seg0 := if rollover then v.decrement.briefChars else v.briefChars
  let sep := if rollover then ['.'] else pre_separator.getD []
  let s1 :=
    if truthyStr v.prerelease_type then
      seg0 ++ sep ++ rc_marker ++ pyOptStrStr v.prerelease_type
        ++ pyOptNatStr v.prerelease
    else seg0
  if truthyNat v.dev_count then
    s1 ++ sep ++ ['d', 'e', 'v'] ++ pyOptNatStr v.dev_count
      ++ (if truthyStr v.githash then hash_separator ++ pyOptStrStr v.githash else [])
  else s1

/-- Model of `SemanticVersion.release_string`
(`self._long_version(".", ".g", "0")`). -/
def SemanticVersion.release_string (v : SemanticVersion) : String :=
  ⟨v._long_version (some ['.']) ['.', 'g'] ['0']⟩

/-- Model of `SemanticVersion.debian_string`
(`self._long_version("~", "+g")`). -/
def SemanticVersion.debian_string (v : SemanticVersion) : String :=
  ⟨v._long_version (some ['~']) ['+', 'g']⟩

/-- Model of `SemanticVersion.rpm_string`
(`self._long_version(None, "+g")`). -/
def SemanticVersion.rpm_string (v : SemanticVersion) : String :=
  ⟨v._long_version none ['+', 'g']⟩

/-- Model of the nested `_parse_type` helper of `from_pip_string`: discard
leading digits, take the run of alphabetic characters as the prerelease
type and `int`-parse the rest as the serial (raising `ValueError`, i.e.
`.error`, when the rest is not a number). -/
def _parse_type (segment : List Char) : Except String (String × Nat) :=
  let seg := segment.dropWhile pyIsDigit
  let pt := seg.takeWhile pyIsAlpha
  match pyIntNat? (seg.drop pt.length) with
  | some n => .ok (⟨pt⟩, n)
  | none => .error "invalid literal for int"

/-- The part of `from_pip_string` after major/minor/patch extraction,
acting on the `remainder` component list.  Mirrors the source: the legacy
branch is taken when `int(remainder[0])` succeeds AND is truthy (so a
leading `0` element falls through); the prerelease branch is guarded by
`remainder[0][0] == '0' or remainder[0][0] in ('a', 'b', 'rc')`, in which a
single character can only ever equal `'a'` or `'b'`, never `'rc'`; an
empty first element makes the `[0]` indexing raise `IndexError`; the dev
element has its first three characters stripped; the hash element has one
leading character stripped. -/
def fromRemainder (major minor patch : Nat) (remainder : List (List Char)) :
    Except String SemanticVersion :=
  match remainder with
  | [] => SemanticVersion.make major minor patch none none none none
  | r0 :: rtail =>
    if (match pyIntNat? r0 with | some k => k != 0 | none => false) then
      SemanticVersion.make major minor patch none none (pyIntNat? r0)
        (match rtail with | g :: _ => some ⟨g.drop 1⟩ | [] => none)
    else
      match r0 with
      | [] => .error "string index out of range"
      | ch :: _ =>
        if ch = '0' || ch = 'a' || ch = 'b' then
          match _parse_type r0 with
          | .error e => .error e
          | .ok (pt, ps) =>
            match rtail with
            | [] => SemanticVersion.make major minor patch (some pt) (some ps) none none
            | d0 :: dtail =>
              match pyIntNat? (d0.drop 3) with
              | some dc =>
                SemanticVersion.make major minor patch (some pt) (some ps) (some dc)
                  (match dtail with | g :: _ => some ⟨g.drop 1⟩ | [] => none)
              | none => .error "invalid literal for int"
        else
          match pyIntNat? (r0.drop 3) with
          | some dc =>
            SemanticVersion.make major minor patch none none (some dc)
              (match rtail with | g :: _ => some ⟨g.drop 1⟩ | [] => none)
          | none => .error "invalid literal for int"

/-- Model of `SemanticVersion.from_pip_string` on a character list: split
on `'.'`, right-pad with zero components to length 3, `int`-parse major
and minor, then either take component 2 as the patch or (legacy fused
qualifier) reinsert it at the head of the remainder with patch 0, and
hand the remainder to `fromRemainder`. -/
def fromPipChars (cs : List Char) : Except String SemanticVersion :=
  let components0 := splitDots cs
  let components := components0 ++ List.replicate (3 - components0.length) ['0']
  match components with
  | c0 :: c1 :: c2 :: rest =>
    match pyIntNat? c0, pyIntNat? c1 with
    | some major, some minor =>
      (match pyIntNat? c2 with
       | some p => fromRemainder major minor p rest
       | none => fromRemainder major minor 0 (c2 :: rest))
    | _, _ => .error "invalid literal for int"
  | _ => .error "unreachable: split produces at least one component"

/-- Model of `SemanticVersion.from_pip_string`. -/
def SemanticVersion.from_pip_string (s : String) : Except String SemanticVersion :=
  fromPipChars s.data

/-- Rank of a prerelease type under the order alpha < beta < candidate
(`"a" < "b" < "rc"`). -/
def prerelRank (t : String) : Nat :=
  if t = "a" then 0 else if t = "b" then 1 else 2

/-- The ordering on prereleases the spec describes: lexicographic on
`(prerelease_type, prerelease_serial)` with type order
alpha < beta < candidate. -/
def prerelCmp (ta : String) (sa : Nat) (tb : String) (sb : Nat) : Ordering :=
  if prerelRank ta < prerelRank tb then .lt
  else if prerelRank tb < prerelRank ta then .gt
  else if sa < sb then .lt else if sb < sa then .gt else .eq

/-- Prefix each component with a `'.'` and concatenate: the textual tail a
component list contributes after the major component. -/
def dotJoinTail : List (List Char) → List Char
  | [] => []
  | x :: xs => '.' :: (x ++ dotJoinTail xs)

/-! ## Helper lemmas -/

theorem strMk_append (a b : List Char) : (⟨a⟩ : String) ++ (⟨b⟩ : String) = ⟨a ++ b⟩ :=
  rfl

theorem lexLt3_self (t : Nat × Nat × Nat) : lexLt3 t t = false := by
  simp [lexLt3]

theorem append_data (s r : String) : s ++ r = ⟨s.data ++ r.data⟩ := by
  cases s; cases r; rfl

theorem natDigits_small {n : Nat} (h : n < 10) : natDigits n = [digitChar n] := by
  rw [natDigits]; simp [h]

theorem natDigits_large {n : Nat} (h : ¬n < 10) :
    natDigits n = natDigits (n / 10) ++ [digitChar (n % 10)] := by
  rw [natDigits]; simp [h]

theorem pyNatStrAux_eq_natDigits (fuel : Nat) :
    ∀ n acc, n < fuel → pyNatStrAux fuel n acc = natDigits n ++ acc := by
  induction fuel with
  | zero => intro n acc h; omega
  | succ fuel ih =>
    intro n acc h
    by_cases h10 : n < 10
    · simp [pyNatStrAux, h10, natDigits_small h10]
    · have hdiv : n / 10 < fuel :=
        lt_of_lt_of_le (Nat.div_lt_self (by omega) (by omega)) (by omega)
      simp [pyNatStrAux, h10, ih _ _ hdiv, natDigits_large h10]

theorem pyNatStr_eq_natDigits (n : Nat) : pyNatStr n = natDigits n := by
  simpa using pyNatStrAux_eq_natDigits (n + 1) n [] (by omega)

theorem digitChar_isDigit (d : Nat) : pyIsDigit (digitChar d) = true := by
  unfold digitChar
  repeat' split
  all_goals decide

theorem digitVal_digitChar {d : Nat} (h : d < 10) : digitVal (digitChar d) = d := by
  interval_cases d <;> decide

theorem digit_not_alpha {c : Char} (h : pyIsDigit c = true) : pyIsAlpha c = false := by
  simp only [pyIsDigit, Bool.and_eq_true, decide_eq_true_eq] at h
  simp only [pyIsAlpha, Bool.or_eq_false_iff, Bool.and_eq_false_iff,
    decide_eq_false_iff_not]
  omega

theorem digit_ne_dot {c : Char} (h : pyIsDigit c = true) : c ≠ '.' := by
  intro hc; subst hc; exact absurd h (by decide)

theorem natDigits_all_digit (n : Nat) : ∀ c ∈ natDigits n, pyIsDigit c = true := by
  induction n using Nat.strong_induction_on with
  | _ n ih =>
    by_cases h : n < 10
    · rw [natDigits_small h]
      intro c hc
      simp only [List.mem_singleton] at hc
      subst hc; exact digitChar_isDigit n
    · rw [natDigits_large h]
      intro c hc
      rcases List.mem_append.mp hc with h1 | h2
      · exact ih (n / 10) (Nat.div_lt_self (by omega) (by omega)) c h1
      · simp only [List.mem_singleton] at h2
        subst h2; exact digitChar_isDigit (n % 10)

theorem natDigits_ne_nil (n : Nat) : natDigits n ≠ [] := by
  by_cases h : n < 10
  · rw [natDigits_small h]; simp
  · rw [natDigits_large h]; simp

theorem natDigits_no_dot (n : Nat) : ∀ c ∈ natDigits n, c ≠ '.' :=
  fun c hc => digit_ne_dot (natDigits_all_digit n c hc)

theorem natFromDigits_append_one (a : List Char) (c : Char) :
    natFromDigits (a ++ [c]) = 10 * natFromDigits a + digitVal c := by
  simp [natFromDigits, List.foldl_append]

theorem natFromDigits_natDigits (n : Nat) : natFromDigits (natDigits n) = n := by
  induction n using Nat.strong_induction_on with
  | _ n ih =>
    by_cases h : n < 10
    · rw [natDigits_small h]
      simp [natFromDigits, digitVal_digitChar h]
    · rw [natDigits_large h, natFromDigits_append_one,
        ih (n / 10) (Nat.div_lt_self (by omega) (by omega)),
        digitVal_digitChar (Nat.mod_lt _ (by omega))]
      omega

theorem pyIntNat?_natDigits (n : Nat) : pyIntNat? (natDigits n) = some n := by
  have h1 : (natDigits n).isEmpty = false := by
    cases hnd : natDigits n with
    | nil => exact absurd hnd (natDigits_ne_nil n)
    | cons a l => rfl
  have h2 : (natDigits n).all pyIsDigit = true := by
    simp only [List.all_eq_true]
    exact natDigits_all_digit n
  simp [pyIntNat?, h1, h2, natFromDigits_natDigits]

/-! ## C2: construction -/

/-- C2: constructing a Version raises InvalidVersionSpec exactly when both
`prerelease_type` and `dev_count` are supplied (non-`None`) — any other
combination, including a prerelease type together with a vcs hash but no
dev count, constructs successfully — and a prerelease type with the serial
omitted defaults the serial to `0`. -/
theorem c2_construction (M m p : Nat) (pt : Option String) (ps dc : Option Nat)
    (gh : Option String) :
    ((∃ e, SemanticVersion.make M m p pt ps dc gh = .error e)
        ↔ (pt.isSome ∧ dc.isSome))
    ∧ (∀ t : String, t ≠ "" →
        SemanticVersion.make M m p (some t) none none gh
          = .ok ⟨M, m, p, some t, some 0, none, gh⟩) := by
  constructor
  · unfold SemanticVersion.make
    cases pt <;> cases dc <;> simp
  · intro t ht
    unfold SemanticVersion.make
    simp [truthyStr, truthyNat, String.isEmpty_iff, ht]

theorem c2_witness :
    SemanticVersion.make 1 0 0 (some "a") none none (some "h")
        = .ok ⟨1, 0, 0, some "a", some 0, none, some "h"⟩
    ∧ (∃ e, SemanticVersion.make 1 0 0 (some "a") none (some 2) none = .error e) :=
  ⟨(c2_construction 1 0 0 (some "a") none none (some "h")).2 "a" (by decide),
   (c2_construction 1 0 0 (some "a") none (some 2) none).1.mpr (by decide)⟩

/-! ## C8: decrement -/

/-- C8: `decrement` drops all qualifiers and computes the preceding triple
with the 9999 rollover: patch−1 when patch > 0, else patch→9999 borrowing
into minor, else minor→9999 borrowing into major, with major floored at 0;
in particular (1,2,0) decrements to (1,1,9999) and (1,0,0) to
(0,9999,9999). -/
theorem c8_decrement (v : SemanticVersion) :
    (v.decrement.prerelease_type = none ∧ v.decrement.prerelease = none
      ∧ v.decrement.dev_count = none ∧ v.decrement.githash = none)
    ∧ (v.decrement.major, v.decrement.minor, v.decrement.patch)
        = (if 0 < v.patch then (v.major, v.minor, v.patch - 1)
           else if 0 < v.minor then (v.major, v.minor - 1, 9999)
           else if 0 < v.major then (v.major - 1, 9999, 9999)
           else (0, 9999, 9999))
    ∧ SemanticVersion.decrement ⟨1, 2, 0, none, none, none, none⟩
        = ⟨1, 1, 9999, none, none, none, none⟩
    ∧ SemanticVersion.decrement ⟨1, 0, 0, none, none, none, none⟩
        = ⟨0, 9999, 9999, none, none, none, none⟩ := by
  refine ⟨?_, ?_, by decide, by decide⟩
  · unfold SemanticVersion.decrement
    by_cases hp : v.patch = 0 <;> by_cases hm : v.minor = 0 <;>
      by_cases hM : v.major = 0 <;> simp [hp, hm, hM]
  · unfold SemanticVersion.decrement
    by_cases hp : v.patch = 0 <;> by_cases hm : v.minor = 0 <;>
      by_cases hM : v.major = 0 <;>
      simp [hp, hm, hM, Nat.pos_iff_ne_zero]

/-! ## C9: comparisons against non-version values -/

/-- C9 counterexample: the claim says equality against a non-version value
fails with a type error, but `__eq__` simply returns `False` (and `__ne__`
`True`) on a non-version — no error is raised. -/
theorem c9_counterexample :
    SemanticVersion.eqPy ⟨1, 0, 0, none, none, none, none⟩ (PyObj.nonVersion "a string")
        = false
    ∧ SemanticVersion.nePy ⟨1, 0, 0, none, none, none, none⟩ (PyObj.nonVersion "a string")
        = true := by
  decide

/-- C9 amended: the four ordering comparisons against a non-version value
all fail with a `TypeError`, while equality against a non-version returns
`False` (it does not fail), and equality between two Versions is full
structural equality of all fields. -/
theorem c9_amended (v w : SemanticVersion) (tag : String) :
    (v.ltPy (.nonVersion tag) = .error "ordering to non-SemanticVersion is undefined"
      ∧ v.lePy (.nonVersion tag) = .error "ordering to non-SemanticVersion is undefined"
      ∧ v.gePy (.nonVersion tag) = .error "ordering to non-SemanticVersion is undefined"
      ∧ v.gtPy (.nonVersion tag) = .error "ordering to non-SemanticVersion is undefined")
    ∧ v.eqPy (.nonVersion tag) = false
    ∧ (v.eqPy (.semver w) = true ↔ v = w) := by
  refine ⟨⟨rfl, ?_, rfl, ?_⟩, rfl, by simp [SemanticVersion.eqPy]⟩
  · simp [SemanticVersion.lePy, SemanticVersion.eqPy, SemanticVersion.ltPy]
  · simp [SemanticVersion.gtPy, SemanticVersion.lePy, SemanticVersion.eqPy,
      SemanticVersion.ltPy, Except.map]

/-! ## C7: rpm rendering -/

/-- C7: with a prerelease or dev qualifier present, `rpm_string` starts
from `decrement().brief_string()` and appends the qualifier with plain
`"."` separators (and `"+g"` before the hash); with no qualifier it equals
`brief_string()`. -/
theorem c7_rpm (v : SemanticVersion) :
    (truthyStr v.prerelease_type = false → truthyNat v.dev_count = false →
        v.rpm_string = v.brief_string)
    ∧ (∀ t, v.prerelease_type = some t → t ≠ "" → truthyNat v.dev_count = false →
        v.rpm_string
          = v.decrement.brief_string ++ "." ++ t ++ (⟨pyOptNatStr v.prerelease⟩ : String))
    ∧ (∀ n, truthyStr v.prerelease_type = false → v.dev_count = some n → n ≠ 0 →
        v.rpm_string
          = v.decrement.brief_string ++ ".dev" ++ (⟨pyNatStr n⟩ : String)
            ++ (if truthyStr v.githash then "+g" ++ (⟨pyOptStrStr v.githash⟩ : String)
                else "")) := by
  refine ⟨?_, ?_, ?_⟩
  · intro hpre hdev
    simp [SemanticVersion.rpm_string, SemanticVersion._long_version,
      SemanticVersion.brief_string, hpre, hdev]
  · intro t h1 h2 h3
    have hemp : t.isEmpty = false := by
      cases h' : t.isEmpty with
      | false => rfl
      | true => simp only [String.isEmpty_iff] at h'; exact absurd h' h2
    have hT : truthyStr (some t) = true := by simp [truthyStr, hemp]
    refine String.ext ?_
    simp [SemanticVersion.rpm_string, SemanticVersion._long_version,
      SemanticVersion.brief_string, h1, h3, hT, pyOptStrStr, String.data_append]
  · intro n h1 h2 h3
    have hD : truthyNat (some n) = true := by simp [truthyNat, h3]
    refine String.ext ?_
    cases hgh : truthyStr v.githash <;>
      simp [SemanticVersion.rpm_string, SemanticVersion._long_version,
        SemanticVersion.brief_string, h1, h2, h3, hD, hgh, pyOptNatStr,
        String.data_append]

theorem c7_witness :
    (⟨1, 3, 0, some "rc", some 2, none, none⟩ : SemanticVersion).rpm_string
        = "1.2.9999.rc2"
    ∧ (⟨1, 3, 0, none, none, some 3, some "h12"⟩ : SemanticVersion).rpm_string
        = "1.2.9999.dev3+gh12"
    ∧ (⟨1, 3, 0, none, none, none, none⟩ : SemanticVersion).rpm_string = "1.3.0" := by
  refine ⟨?_, ?_, ?_⟩
  · have h := (c7_rpm ⟨1, 3, 0, some "rc", some 2, none, none⟩).2.1 "rc" rfl
      (by decide) (by decide)
    exact h.trans (by decide)
  · have h := (c7_rpm ⟨1, 3, 0, none, none, some 3, some "h12"⟩).2.2 3 (by decide)
      rfl (by decide)
    exact h.trans (by decide)
  · have h := (c7_rpm ⟨1, 3, 0, none, none, none, none⟩).1 (by decide) (by decide)
    exact h.trans (by decide)

/-! ## C3, C6: comparison of equal triples -/

theorem mem_abc {t : String} (h : t ∈ (["a", "b", "rc"] : List String)) :
    t = "a" ∨ t = "b" ∨ t = "rc" := by
  simpa using h

theorem pyTupleLt_eq (ta tb : String) (sa sb : Nat)
    (hta : ta ∈ (["a", "b", "rc"] : List String))
    (htb : tb ∈ (["a", "b", "rc"] : List String)) :
    pyTupleLt ta (some sa) tb (some sb)
      = .ok (decide (prerelRank ta < prerelRank tb)
          || (prerelRank ta == prerelRank tb && decide (sa < sb))) := by
  rcases mem_abc hta with rfl | rfl | rfl <;> rcases mem_abc htb with rfl | rfl | rfl <;>
    by_cases hss : sa = sb <;>
    simp [pyTupleLt, prerelRank, strLtChars, hss, Nat.lt_irrefl]

/-- C3: for equal `(major, minor, patch)` triples, comparing a prerelease
against a dev build fails with `UndefinedOrder` (in both directions), and
two dev builds with equal `dev_count` fail with `UndefinedOrder` when
their hashes differ but compare EQ when their hashes agree. -/
theorem c3_undefined_order (a b : SemanticVersion)
    (hM : a.major = b.major) (hm : a.minor = b.minor) (hp : a.patch = b.patch) :
    (truthyStr a.prerelease_type = true → truthyNat a.dev_count = false →
        truthyStr b.prerelease_type = false → truthyNat b.dev_count = true →
        pyCompare a b = .error "ordering pre-release with dev builds is undefined"
          ∧ pyCompare b a = .error "ordering pre-release with dev builds is undefined")
    ∧ (∀ n, truthyStr a.prerelease_type = false → truthyStr b.prerelease_type = false →
        a.dev_count = some n → b.dev_count = some n → n ≠ 0 →
        ((a.githash ≠ b.githash →
            pyCompare a b = .error "same version with different hash has no defined order")
          ∧ (a.githash = b.githash → pyCompare a b = .ok .eq))) := by
  constructor
  · intro h1 h2 h3 h4
    have hab : a.lt b = .error "ordering pre-release with dev builds is undefined" := by
      simp [SemanticVersion.lt, hM, hm, hp, lexLt3_self, h1, h3, h4]
    have hba : b.lt a = .error "ordering pre-release with dev builds is undefined" := by
      simp [SemanticVersion.lt, hM, hm, hp, lexLt3_self, h1, h2, h3, h4]
    exact ⟨by simp [pyCompare, hab], by simp [pyCompare, hba]⟩
  · intro n h1 h2 h3 h4 h5
    constructor
    · intro hg
      have hab : a.lt b = .error "same version with different hash has no defined order" := by
        simp [SemanticVersion.lt, hM, hm, hp, lexLt3_self, h1, h2, h3, h4,
          truthyNat, h5, hg]
      simp [pyCompare, hab]
    · intro hg
      have hab : a.lt b = .ok false := by
        simp [SemanticVersion.lt, hM, hm, hp, lexLt3_self, h1, h2, h3, h4,
          truthyNat, h5, hg]
      have hba : b.lt a = .ok false := by
        simp [SemanticVersion.lt, hM, hm, hp, lexLt3_self, h1, h2, h3, h4,
          truthyNat, h5, hg]
      simp [pyCompare, hab, hba]

theorem c3_witness :
    pyCompare ⟨1, 0, 0, none, none, some 2, some "a"⟩
        ⟨1, 0, 0, none, none, some 2, some "b"⟩
      = .error "same version with different hash has no defined order"
    ∧ pyCompare ⟨1, 0, 0, some "a", some 1, none, none⟩
        ⟨1, 0, 0, none, none, some 2, some "a"⟩
      = .error "ordering pre-release with dev builds is undefined" :=
  ⟨((c3_undefined_order ⟨1, 0, 0, none, none, some 2, some "a"⟩
      ⟨1, 0, 0, none, none, some 2, some "b"⟩ rfl rfl rfl).2 2
      (by decide) (by decide) rfl rfl (by decide)).1 (by decide),
   ((c3_undefined_order ⟨1, 0, 0, some "a", some 1, none, none⟩
      ⟨1, 0, 0, none, none, some 2, some "a"⟩ rfl rfl rfl).1
      (by decide) (by decide) (by decide) (by decide)).1⟩

/-- C6: for equal `(major, minor, patch)` triples, a final release (no
prerelease, no dev) compares GT any prerelease or dev build and EQ another
final release, and two prereleases compare by `(type, serial)`
lexicographically with type order alpha < beta < candidate. -/
theorem c6_equal_triple_order (a b : SemanticVersion)
    (hM : a.major = b.major) (hm : a.minor = b.minor) (hp : a.patch = b.patch) :
    (truthyStr a.prerelease_type = false → truthyNat a.dev_count = false →
        ((truthyStr b.prerelease_type = true ∨ truthyNat b.dev_count = true) →
            pyCompare a b = .ok .gt)
          ∧ (truthyStr b.prerelease_type = false → truthyNat b.dev_count = false →
            pyCompare a b = .ok .eq))
    ∧ (∀ ta sa tb sb, a.prerelease_type = some ta → a.prerelease = some sa →
        b.prerelease_type = some tb → b.prerelease = some sb →
        ta ∈ (["a", "b", "rc"] : List String) → tb ∈ (["a", "b", "rc"] : List String) →
        pyCompare a b = .ok (prerelCmp ta sa tb sb)) := by
  constructor
  · intro h1 h2
    constructor
    · intro h3
      have hab : a.lt b = .ok false := by
        simp [SemanticVersion.lt, hM, hm, hp, lexLt3_self, h1, h2]
      cases hbp : truthyStr b.prerelease_type with
      | true =>
        have hba : b.lt a = .ok true := by
          simp [SemanticVersion.lt, hM, hm, hp, lexLt3_self, h1, h2, hbp]
        simp [pyCompare, hab, hba]
      | false =>
        have hbd : truthyNat b.dev_count = true := by
          rcases h3 with h | h
          · exact absurd h (by simp [hbp])
          · exact h
        have hba : b.lt a = .ok true := by
          simp [SemanticVersion.lt, hM, hm, hp, lexLt3_self, h1, h2, hbp, hbd]
        simp [pyCompare, hab, hba]
    · intro h3 h4
      have hab : a.lt b = .ok false := by
        simp [SemanticVersion.lt, hM, hm, hp, lexLt3_self, h1, h2]
      have hba : b.lt a = .ok false := by
        simp [SemanticVersion.lt, hM, hm, hp, lexLt3_self, h3, h4]
      simp [pyCompare, hab, hba]
  · intro ta sa tb sb ha1 ha2 hb1 hb2 hta htb
    have hA : truthyStr (some ta) = true := by
      rcases mem_abc hta with rfl | rfl | rfl <;> decide
    have hB : truthyStr (some tb) = true := by
      rcases mem_abc htb with rfl | rfl | rfl <;> decide
    have hlt : a.lt b = pyTupleLt ta (some sa) tb (some sb) := by
      simp [SemanticVersion.lt, hM, hm, hp, lexLt3_self, hA, hB, ha1, ha2, hb1, hb2]
    have hlt2 : b.lt a = pyTupleLt tb (some sb) ta (some sa) := by
      simp [SemanticVersion.lt, hM, hm, hp, lexLt3_self, hA, hB, ha1, ha2, hb1, hb2]
    unfold pyCompare
    rw [hlt, pyTupleLt_eq ta tb sa sb hta htb, hlt2, pyTupleLt_eq tb ta sb sa htb hta]
    rcases Nat.lt_trichotomy (prerelRank ta) (prerelRank tb) with h | h | h
    · simp [prerelCmp, h, Nat.lt_asymm h, Nat.ne_of_lt h]
    · rcases Nat.lt_trichotomy sa sb with h2 | h2 | h2
      · simp [prerelCmp, h, h2, Nat.lt_asymm h2, Nat.lt_irrefl]
      · simp [prerelCmp, h, h2, Nat.lt_irrefl]
      · simp [prerelCmp, h, h2, Nat.lt_asymm h2, Nat.lt_irrefl]
    · have hne : (prerelRank ta == prerelRank tb) = false :=
        beq_eq_false_iff_ne.mpr (ne_of_gt h)
      simp [prerelCmp, h, Nat.lt_asymm h, Nat.ne_of_lt h, hne]

theorem c6_witness :
    pyCompare ⟨1, 0, 0, none, none, none, none⟩
        ⟨1, 0, 0, some "rc", some 1, none, none⟩ = .ok .gt
    ∧ pyCompare ⟨1, 0, 0, some "a", some 5, none, none⟩
        ⟨1, 0, 0, some "b", some 1, none, none⟩ = .ok .lt :=
  ⟨((c6_equal_triple_order ⟨1, 0, 0, none, none, none, none⟩
      ⟨1, 0, 0, some "rc", some 1, none, none⟩ rfl rfl rfl).1
      (by decide) (by decide)).1 (Or.inl (by decide)),
   ((c6_equal_triple_order ⟨1, 0, 0, some "a", some 5, none, none⟩
      ⟨1, 0, 0, some "b", some 1, none, none⟩ rfl rfl rfl).2 "a" 5 "b" 1
      rfl rfl rfl rfl (by decide) (by decide)).trans (by rfl)⟩

/-! ## C10: dev_count = 0 -/

/-- C10: a Version built with `dev_count = 0` and no prerelease renders
(`release_string`, `debian_string`, `rpm_string`) exactly like the bare
final release of the same triple (its `rpm_string` equals its own
`brief_string`), compares GT any prerelease or positive-dev build of the
same triple, and yet is not `==`-equal to the final release with
`dev_count` absent. -/
theorem c10_dev_zero (M m p : Nat) (gh : Option String) :
    (SemanticVersion.mk M m p none none (some 0) gh).release_string
        = (SemanticVersion.mk M m p none none none none).release_string
    ∧ (SemanticVersion.mk M m p none none (some 0) gh).debian_string
        = (SemanticVersion.mk M m p none none none none).debian_string
    ∧ (SemanticVersion.mk M m p none none (some 0) gh).rpm_string
        = (SemanticVersion.mk M m p none none none none).rpm_string
    ∧ (SemanticVersion.mk M m p none none (some 0) gh).rpm_string
        = (SemanticVersion.mk M m p none none (some 0) gh).brief_string
    ∧ (∀ b : SemanticVersion, b.major = M → b.minor = m → b.patch = p →
        (truthyStr b.prerelease_type = true ∨
          (truthyStr b.prerelease_type = false ∧ truthyNat b.dev_count = true)) →
        pyCompare (SemanticVersion.mk M m p none none (some 0) gh) b = .ok .gt)
    ∧ SemanticVersion.eqPy (SemanticVersion.mk M m p none none (some 0) gh)
        (.semver (SemanticVersion.mk M m p none none none none)) = false := by
  refine ⟨?_, ?_, ?_, ?_, ?_, ?_⟩
  · simp [SemanticVersion.release_string, SemanticVersion._long_version,
      SemanticVersion.briefChars, truthyStr, truthyNat]
  · simp [SemanticVersion.debian_string, SemanticVersion._long_version,
      SemanticVersion.briefChars, truthyStr, truthyNat]
  · simp [SemanticVersion.rpm_string, SemanticVersion._long_version,
      SemanticVersion.briefChars, truthyStr, truthyNat]
  · simp [SemanticVersion.rpm_string, SemanticVersion._long_version,
      SemanticVersion.brief_string, truthyStr, truthyNat]
  · intro b h1 h2 h3 h4
    have e1 : truthyStr (none : Option String) = false := rfl
    have e2 : truthyNat (some 0) = false := rfl
    have hab : (SemanticVersion.mk M m p none none (some 0) gh).lt b = .ok false := by
      simp [SemanticVersion.lt, h1, h2, h3, lexLt3_self, e1, e2]
    have hba : b.lt (SemanticVersion.mk M m p none none (some 0) gh) = .ok true := by
      rcases h4 with h | ⟨h, h'⟩
      · simp [SemanticVersion.lt, h1, h2, h3, lexLt3_self, e1, e2, h]
      · simp [SemanticVersion.lt, h1, h2, h3, lexLt3_self, e1, e2, h, h']
    simp [pyCompare, hab, hba]
  · simp [SemanticVersion.eqPy]

theorem c10_witness :
    (SemanticVersion.mk 1 2 3 none none (some 0) (some "h")).release_string
        = (SemanticVersion.mk 1 2 3 none none none none).release_string
    ∧ pyCompare (SemanticVersion.mk 1 2 3 none none (some 0) (some "h"))
        ⟨1, 2, 3, some "a", some 1, none, none⟩ = .ok .gt
    ∧ SemanticVersion.eqPy (SemanticVersion.mk 1 2 3 none none (some 0) (some "h"))
        (.semver (SemanticVersion.mk 1 2 3 none none none none)) = false :=
  ⟨(c10_dev_zero 1 2 3 (some "h")).1,
   (c10_dev_zero 1 2 3 (some "h")).2.2.2.2.1 ⟨1, 2, 3, some "a", some 1, none, none⟩
     rfl rfl rfl (Or.inl (by decide)),
   (c10_dev_zero 1 2 3 (some "h")).2.2.2.2.2⟩

/-! ## Parser lemmas and claims C1, C4, C5 -/

theorem alpha_not_digit {c : Char} (h : pyIsAlpha c = true) : pyIsDigit c = false := by
  simp only [pyIsAlpha, Bool.or_eq_true, Bool.and_eq_true, decide_eq_true_eq] at h
  simp only [pyIsDigit, Bool.and_eq_false_iff, decide_eq_false_iff_not]
  omega

theorem dropWhile_digits_append (l1 l2 : List Char) (h : ∀ c ∈ l1, pyIsDigit c = true) :
    (l1 ++ l2).dropWhile pyIsDigit = l2.dropWhile pyIsDigit := by
  induction l1 with
  | nil => rfl
  | cons c cs ih =>
    have hc : pyIsDigit c = true := h c (by simp)
    simp only [List.cons_append, List.dropWhile_cons, hc, if_true]
    exact ih fun x hx => h x (by simp [hx])

theorem takeWhile_digits_nil (l : List Char) (h : ∀ c ∈ l, pyIsDigit c = true) :
    l.takeWhile pyIsAlpha = [] := by
  cases l with
  | nil => rfl
  | cons c cs =>
    have hc : pyIsDigit c = true := h c (by simp)
    have : pyIsAlpha c = false := by
      cases ha : pyIsAlpha c
      · rfl
      · rw [alpha_not_digit ha] at hc; exact absurd hc (by decide)
    simp [List.takeWhile_cons, this]

theorem splitDots_append (xs ys : List Char) (h : ∀ c ∈ xs, c ≠ '.') :
    splitDots (xs ++ '.' :: ys) = xs :: splitDots ys := by
  induction xs with
  | nil => simp [splitDots]
  | cons c cs ih =>
    have hc : ¬c = '.' := h c (by simp)
    have ih' := ih fun x hx => h x (by simp [hx])
    simp only [List.cons_append, splitDots, hc, if_false, List.append_eq, ih']

theorem splitDots_nodot (xs : List Char) (h : ∀ c ∈ xs, c ≠ '.') :
    splitDots xs = [xs] := by
  induction xs with
  | nil => rfl
  | cons c cs ih =>
    have hc : ¬c = '.' := h c (by simp)
    have ih' := ih fun x hx => h x (by simp [hx])
    simp only [splitDots, hc, if_false, ih']

theorem splitDots_build (rest : List (List Char)) :
    ∀ xs : List Char, (∀ c ∈ xs, c ≠ '.') →
      (∀ x ∈ rest, ∀ c ∈ x, c ≠ '.') →
      splitDots (xs ++ dotJoinTail rest) = xs :: rest := by
  induction rest with
  | nil => intro xs hxs _; simpa [dotJoinTail] using splitDots_nodot xs hxs
  | cons r rs ih =>
    intro xs hxs hrest
    have : xs ++ dotJoinTail (r :: rs) = xs ++ '.' :: (r ++ dotJoinTail rs) := rfl
    rw [this, splitDots_append xs _ hxs,
      ih r (hrest r (by simp)) fun x hx => hrest x (by simp [hx])]

theorem all_digits_false_of_alpha (tl : List Char) (htl : tl ≠ [])
    (ha : ∀ c ∈ tl, pyIsAlpha c = true) : tl.all pyIsDigit = false := by
  cases tl with
  | nil => exact absurd rfl htl
  | cons c cs =>
    have := alpha_not_digit (ha c (by simp))
    simp [List.all_cons, this]

theorem fromPipChars_eq (M m p : Nat) (rest : List (List Char))
    (hrest : ∀ x ∈ rest, ∀ c ∈ x, c ≠ '.') :
    fromPipChars (natDigits M ++ dotJoinTail (natDigits m :: natDigits p :: rest))
      = fromRemainder M m p rest := by
  have hsplit : splitDots (natDigits M ++ dotJoinTail (natDigits m :: natDigits p :: rest))
      = natDigits M :: natDigits m :: natDigits p :: rest := by
    refine splitDots_build _ _ (natDigits_no_dot M) ?_
    intro x hx
    simp only [List.mem_cons] at hx
    rcases hx with rfl | rfl | hx
    · exact natDigits_no_dot m
    · exact natDigits_no_dot p
    · exact hrest x hx
  have hrep : List.replicate
      (3 - (natDigits M :: natDigits m :: natDigits p :: rest).length) (['0'] : List Char)
      = [] := by
    have : 3 - (natDigits M :: natDigits m :: natDigits p :: rest).length = 0 := by
      simp
    rw [this]
    rfl
  simp only [fromPipChars, hsplit, hrep, List.append_nil, pyIntNat?_natDigits]

theorem parse_type_eq (d0 : Char) (hd0 : pyIsDigit d0 = true) (ds : List Char)
    (hds : ∀ c ∈ ds, pyIsDigit c = true) (t : String) (s : Nat)
    (ht : t ∈ (["a", "b", "rc"] : List String)) :
    _parse_type (d0 :: (ds ++ (t.data ++ natDigits s))) = .ok (t, s) := by
  have hall : ∀ c ∈ d0 :: ds, pyIsDigit c = true := by
    intro c hc
    simp only [List.mem_cons] at hc
    rcases hc with rfl | hc
    · exact hd0
    · exact hds c hc
  have h1 : (d0 :: (ds ++ (t.data ++ natDigits s))).dropWhile pyIsDigit
      = (t.data ++ natDigits s).dropWhile pyIsDigit :=
    dropWhile_digits_append (d0 :: ds) (t.data ++ natDigits s) hall
  unfold _parse_type
  rw [h1]
  rcases mem_abc ht with rfl | rfl | rfl <;>
    simp [List.dropWhile_cons, List.takeWhile_cons,
      takeWhile_digits_nil _ (natDigits_all_digit s), pyIntNat?_natDigits,
      (by decide : pyIsDigit 'a' = false), (by decide : pyIsDigit 'b' = false),
      (by decide : pyIsDigit 'r' = false), (by decide : pyIsAlpha 'a' = true),
      (by decide : pyIsAlpha 'b' = true), (by decide : pyIsAlpha 'r' = true),
      (by decide : pyIsAlpha 'c' = true)]

theorem make_prerel (M m p : Nat) (t : String) (s : Nat)
    (ht : truthyStr (some t) = true) :
    SemanticVersion.make M m p (some t) (some s) none none
      = .ok ⟨M, m, p, some t, some s, none, none⟩ := by
  unfold SemanticVersion.make
  by_cases hs : s = 0
  · subst hs; simp [ht, truthyNat]
  · simp [ht, truthyNat, hs]

theorem fromRemainder_prerel (M m p s : Nat) (ds : List Char) (t : String)
    (hds : ∀ c ∈ ds, pyIsDigit c = true)
    (ht : t ∈ (["a", "b", "rc"] : List String)) :
    fromRemainder M m p ['0' :: ds ++ t.data ++ natDigits s]
      = .ok ⟨M, m, p, some t, some s, none, none⟩ := by
  have htne : t.data ≠ [] := by
    rcases mem_abc ht with rfl | rfl | rfl <;> decide
  have hta : ∀ c ∈ t.data, pyIsAlpha c = true := by
    rcases mem_abc ht with rfl | rfl | rfl <;> decide
  have hT : truthyStr (some t) = true := by
    rcases mem_abc ht with rfl | rfl | rfl <;> decide
  have hint : pyIntNat? ('0' :: (ds ++ (t.data ++ natDigits s))) = none := by
    simp [pyIntNat?, List.all_append, all_digits_false_of_alpha t.data htne hta]
  simp [fromRemainder, hint, parse_type_eq '0' (by decide) ds hds t s ht,
    make_prerel M m p t s hT]

theorem fromRemainder_dev (M m p n : Nat) (tail : List (List Char)) :
    fromRemainder M m p (('d' :: 'e' :: 'v' :: natDigits n) :: tail)
      = .ok ⟨M, m, p, none, none, some n,
          match tail with | g :: _ => some ⟨g.drop 1⟩ | [] => none⟩ := by
  have hint : pyIntNat? ('d' :: 'e' :: 'v' :: natDigits n) = none := by
    simp [pyIntNat?, (by decide : pyIsDigit 'd' = false)]
  simp [fromRemainder, hint, List.drop, pyIntNat?_natDigits,
    SemanticVersion.make, truthyStr]

theorem fromRemainder_legacy (M m p n : Nat) (hn : n ≠ 0) (tail : List (List Char)) :
    fromRemainder M m p (natDigits n :: tail)
      = .ok ⟨M, m, p, none, none, some n,
          match tail with | g :: _ => some ⟨g.drop 1⟩ | [] => none⟩ := by
  simp [fromRemainder, pyIntNat?_natDigits, hn, SemanticVersion.make, truthyStr]

theorem fromRemainder_nil (M m p : Nat) :
    fromRemainder M m p [] = .ok ⟨M, m, p, none, none, none, none⟩ := rfl

theorem data_mk (l : List Char) : (⟨l⟩ : String).data = l := rfl

theorem fromRemainder_prerel_nolead (M m p s : Nat) (t : String)
    (ht : t ∈ (["a", "b"] : List String)) :
    fromRemainder M m p [t.data ++ natDigits s] = .ok ⟨M, m, p, some t, some s, none, none⟩ := by
  have ht2 : t = "a" ∨ t = "b" := by simpa using ht
  rcases ht2 with rfl | rfl
  · have hd : ("a" : String).data = ['a'] := rfl
    have hint : pyIntNat? ('a' :: natDigits s) = none := by
      simp [pyIntNat?, (by decide : pyIsDigit 'a' = false)]
    have hpt : _parse_type ('a' :: natDigits s) = .ok ("a", s) := by
      unfold _parse_type
      simp [List.dropWhile_cons, List.takeWhile_cons,
        (by decide : pyIsDigit 'a' = false), (by decide : pyIsAlpha 'a' = true),
        takeWhile_digits_nil _ (natDigits_all_digit s), pyIntNat?_natDigits]
    simp [fromRemainder, hd, hint, hpt, make_prerel M m p "a" s (by decide)]
  · have hd : ("b" : String).data = ['b'] := rfl
    have hint : pyIntNat? ('b' :: natDigits s) = none := by
      simp [pyIntNat?, (by decide : pyIsDigit 'b' = false)]
    have hpt : _parse_type ('b' :: natDigits s) = .ok ("b", s) := by
      unfold _parse_type
      simp [List.dropWhile_cons, List.takeWhile_cons,
        (by decide : pyIsDigit 'b' = false), (by decide : pyIsAlpha 'b' = true),
        takeWhile_digits_nil _ (natDigits_all_digit s), pyIntNat?_natDigits]
    simp [fromRemainder, hd, hint, hpt, make_prerel M m p "b" s (by decide)]

theorem fromPipChars_fused (M m : Nat) (elem : List Char)
    (helem : ∀ c ∈ elem, c ≠ '.') (hall : elem.all pyIsDigit = false) :
    fromPipChars (natDigits M ++ dotJoinTail [natDigits m, elem])
      = fromRemainder M m 0 [elem] := by
  have hsplit : splitDots (natDigits M ++ dotJoinTail [natDigits m, elem])
      = [natDigits M, natDigits m, elem] := by
    refine splitDots_build _ _ (natDigits_no_dot M) ?_
    intro x hx
    simp only [List.mem_cons, List.mem_singleton] at hx
    rcases hx with rfl | rfl | hx
    · exact natDigits_no_dot m
    · exact helem
    · exact absurd hx (List.not_mem_nil x)
  have hint : pyIntNat? elem = none := by
    simp [pyIntNat?, hall]
  simp [fromPipChars, hsplit, pyIntNat?_natDigits, hint]

theorem elem_prerel_no_dot (ds : List Char) (hds : ∀ c ∈ ds, pyIsDigit c = true)
    (t : String) (ht : t ∈ (["a", "b", "rc"] : List String)) (s : Nat) :
    ∀ c ∈ '0' :: ds ++ t.data ++ natDigits s, c ≠ '.' := by
  intro c hc
  simp only [List.mem_append, List.mem_cons] at hc
  rcases hc with ((rfl | hc) | hc) | hc
  · decide
  · exact digit_ne_dot (hds c hc)
  · rcases mem_abc ht with rfl | rfl | rfl
    · have hda : ("a" : String).data = ['a'] := rfl
      rw [hda] at hc
      have : c = 'a' := by simpa using hc
      subst this; decide
    · have hdb : ("b" : String).data = ['b'] := rfl
      rw [hdb] at hc
      have : c = 'b' := by simpa using hc
      subst this; decide
    · have hdr : ("rc" : String).data = ['r', 'c'] := rfl
      rw [hdr] at hc
      have : c = 'r' ∨ c = 'c' := by simpa using hc
      rcases this with rfl | rfl <;> decide
  · exact natDigits_no_dot s c hc

/-- C4 amended: the prerelease branch is entered only when the first
remainder element starts with `'0'`, `'a'` or `'b'` (so an `rc` qualifier
needs the leading-zero form `0rcN`, and leading digits are only stripped
when the first of them is `0`); in that branch leading digits are
stripped, the run of letters becomes `prerelease_type` and the trailing
digits `prerelease_serial`.  This holds both with the patch component
present and in the fused legacy layout (`1.3.0a1`). -/
theorem c4_amended (M m p s : Nat) :
    (∀ ds t, (∀ c ∈ ds, pyIsDigit c = true) → t ∈ (["a", "b", "rc"] : List String) →
        SemanticVersion.from_pip_string
            ⟨pyNatStr M ++ dotJoinTail [pyNatStr m, pyNatStr p,
              '0' :: ds ++ t.data ++ pyNatStr s]⟩
          = .ok ⟨M, m, p, some t, some s, none, none⟩)
    ∧ (∀ t, t ∈ (["a", "b"] : List String) →
        SemanticVersion.from_pip_string
            ⟨pyNatStr M ++ dotJoinTail [pyNatStr m, pyNatStr p, t.data ++ pyNatStr s]⟩
          = .ok ⟨M, m, p, some t, some s, none, none⟩)
    ∧ (∀ ds t, (∀ c ∈ ds, pyIsDigit c = true) → t ∈ (["a", "b", "rc"] : List String) →
        SemanticVersion.from_pip_string
            ⟨pyNatStr M ++ dotJoinTail [pyNatStr m, '0' :: ds ++ t.data ++ pyNatStr s]⟩
          = .ok ⟨M, m, 0, some t, some s, none, none⟩) := by
  refine ⟨?_, ?_, ?_⟩
  · intro ds t hds ht
    simp only [SemanticVersion.from_pip_string, data_mk, pyNatStr_eq_natDigits]
    rw [fromPipChars_eq M m p ['0' :: ds ++ t.data ++ natDigits s] (by
      intro x hx
      simp only [List.mem_singleton] at hx
      subst hx
      exact elem_prerel_no_dot ds hds t ht s)]
    exact fromRemainder_prerel M m p s ds t hds ht
  · intro t ht
    have ht2 : t = "a" ∨ t = "b" := by simpa using ht
    have hnd : ∀ c ∈ t.data ++ natDigits s, c ≠ '.' := by
      intro c hc
      simp only [List.mem_append] at hc
      rcases hc with hc | hc
      · rcases ht2 with rfl | rfl
        · have hda : ("a" : String).data = ['a'] := rfl
          rw [hda] at hc
          have : c = 'a' := by simpa using hc
          subst this; decide
        · have hdb : ("b" : String).data = ['b'] := rfl
          rw [hdb] at hc
          have : c = 'b' := by simpa using hc
          subst this; decide
      · exact natDigits_no_dot s c hc
    simp only [SemanticVersion.from_pip_string, data_mk, pyNatStr_eq_natDigits]
    rw [fromPipChars_eq M m p [t.data ++ natDigits s] (by
      intro x hx
      simp only [List.mem_singleton] at hx
      subst hx
      exact hnd)]
    exact fromRemainder_prerel_nolead M m p s t ht
  · intro ds t hds ht
    have hall : ('0' :: ds ++ t.data ++ natDigits s).all pyIsDigit = false := by
      have htne : t.data ≠ [] := by
        rcases mem_abc ht with rfl | rfl | rfl <;> decide
      have hta : ∀ c ∈ t.data, pyIsAlpha c = true := by
        rcases mem_abc ht with rfl | rfl | rfl <;> decide
      simp [List.all_append, all_digits_false_of_alpha t.data htne hta]
    simp only [SemanticVersion.from_pip_string, data_mk, pyNatStr_eq_natDigits]
    rw [fromPipChars_fused M m ('0' :: ds ++ t.data ++ natDigits s)
      (elem_prerel_no_dot ds hds t ht s) hall]
    exact fromRemainder_prerel M m 0 s ds t hds ht

/-- C5 amended: for a *positive* pure-integer first remainder element N,
`from_pip_string` sets `dev_count = N` and takes the following element
(if any) as `vcs_hash` with its single leading marker character stripped;
the N = 0 form fails to parse (see the counterexample). -/
theorem c5_amended (M m p n : Nat) (hn : n ≠ 0) :
    (∀ (hd : Char) (h : List Char), hd ≠ '.' → (∀ c ∈ h, c ≠ '.') →
        SemanticVersion.from_pip_string
            ⟨pyNatStr M ++ dotJoinTail [pyNatStr m, pyNatStr p, pyNatStr n, hd :: h]⟩
          = .ok ⟨M, m, p, none, none, some n, some ⟨h⟩⟩)
    ∧ SemanticVersion.from_pip_string
        ⟨pyNatStr M ++ dotJoinTail [pyNatStr m, pyNatStr p, pyNatStr n]⟩
      = .ok ⟨M, m, p, none, none, some n, none⟩ := by
  constructor
  · intro hd h hhd hh
    simp only [SemanticVersion.from_pip_string, data_mk, pyNatStr_eq_natDigits]
    rw [fromPipChars_eq M m p [natDigits n, hd :: h] (by
      intro x hx
      simp only [List.mem_cons, List.mem_singleton] at hx
      rcases hx with rfl | rfl | hx
      · exact natDigits_no_dot n
      · intro c hc
        rcases List.mem_cons.mp hc with rfl | hc
        · exact hhd
        · exact hh c hc
      · exact absurd hx (List.not_mem_nil x))]
    rw [fromRemainder_legacy M m p n hn [hd :: h]]
    rfl
  · simp only [SemanticVersion.from_pip_string, data_mk, pyNatStr_eq_natDigits]
    rw [fromPipChars_eq M m p [natDigits n] (by
      intro x hx
      simp only [List.mem_singleton] at hx
      subst hx
      exact natDigits_no_dot n)]
    rw [fromRemainder_legacy M m p n hn []]

/-- C4 counterexample: the claim says an `rc` qualifier with no leading
digit parses (e.g. `"1.2.3.rc1"`), but the code's guard
`remainder[0][0] in ('a', 'b', 'rc')` compares a single character against
`'rc'`, which never matches, so `"1.2.3.rc1"` raises `ValueError`. -/
theorem c4_counterexample :
    SemanticVersion.from_pip_string "1.2.3.rc1" = .error "invalid literal for int" := rfl

/-- C5 counterexample: the claim includes N = 0, but the legacy-dev guard
is `if remainder and int(remainder[0]):` — for N = 0 the integer is falsy,
the element falls into the prerelease branch (first character `'0'`) and
`int("")` raises `ValueError`. -/
theorem c5_counterexample :
    SemanticVersion.from_pip_string "0.10.1.0.g83bef74"
      = .error "invalid literal for int" := rfl

theorem c4_witness :
    SemanticVersion.from_pip_string "1.3.0a1" = .ok ⟨1, 3, 0, some "a", some 1, none, none⟩
    ∧ SemanticVersion.from_pip_string "1.2.3.0rc2"
        = .ok ⟨1, 2, 3, some "rc", some 2, none, none⟩ :=
  ⟨(c4_amended 1 3 0 1).2.2 [] "a" (by simp) (by decide),
   (c4_amended 1 2 3 2).1 [] "rc" (by simp) (by decide)⟩

theorem c5_witness :
    SemanticVersion.from_pip_string "0.10.1.3.g83bef74"
      = .ok ⟨0, 10, 1, none, none, some 3, some "83bef74"⟩ :=
  (c5_amended 0 10 1 3 (by decide)).1 'g' ['8', '3', 'b', 'e', 'f', '7', '4']
    (by decide) (by decide)

/-- C1: round-trip through the canonical rendering — for versions whose
canonical form is not ambiguous (a final release; a prerelease with type
a/b/rc and a serial; a dev build with positive `dev_count` and a hash that
is absent or non-empty and dot-free), parsing `release_string` gives back
exactly the same Version. -/
theorem c1_roundtrip (M m p : Nat) :
    (SemanticVersion.from_pip_string
        (SemanticVersion.release_string ⟨M, m, p, none, none, none, none⟩)
      = .ok ⟨M, m, p, none, none, none, none⟩)
    ∧ (∀ t s, t ∈ (["a", "b", "rc"] : List String) →
        SemanticVersion.from_pip_string
            (SemanticVersion.release_string ⟨M, m, p, some t, some s, none, none⟩)
          = .ok ⟨M, m, p, some t, some s, none, none⟩)
    ∧ (∀ n, n ≠ 0 →
        (SemanticVersion.from_pip_string
            (SemanticVersion.release_string ⟨M, m, p, none, none, some n, none⟩)
          = .ok ⟨M, m, p, none, none, some n, none⟩)
        ∧ ∀ hs : String, hs.data ≠ [] → (∀ c ∈ hs.data, c ≠ '.') →
            SemanticVersion.from_pip_string
                (SemanticVersion.release_string ⟨M, m, p, none, none, some n, some hs⟩)
              = .ok ⟨M, m, p, none, none, some n, some hs⟩) := by
  refine ⟨?_, ?_, ?_⟩
  · have hchars : (SemanticVersion.release_string ⟨M, m, p, none, none, none, none⟩).data
        = natDigits M ++ dotJoinTail [natDigits m, natDigits p] := by
      simp [SemanticVersion.release_string, SemanticVersion._long_version,
        SemanticVersion.briefChars, truthyStr, truthyNat, dotJoinTail,
        pyNatStr_eq_natDigits, data_mk]
    show fromPipChars _ = _
    rw [hchars, fromPipChars_eq M m p [] (by intro x hx; exact absurd hx (List.not_mem_nil x))]
    exact fromRemainder_nil M m p
  · intro t s ht
    have hT : truthyStr (some t) = true := by
      rcases mem_abc ht with rfl | rfl | rfl <;> decide
    have hchars : (SemanticVersion.release_string ⟨M, m, p, some t, some s, none, none⟩).data
        = natDigits M ++ dotJoinTail [natDigits m, natDigits p,
            '0' :: ([] : List Char) ++ t.data ++ natDigits s] := by
      simp [SemanticVersion.release_string, SemanticVersion._long_version,
        SemanticVersion.briefChars, hT, truthyNat, dotJoinTail, pyOptNatStr,
        pyOptStrStr, pyNatStr_eq_natDigits, data_mk]
    show fromPipChars _ = _
    rw [hchars, fromPipChars_eq M m p ['0' :: ([] : List Char) ++ t.data ++ natDigits s] (by
      intro x hx
      simp only [List.mem_singleton] at hx
      subst hx
      exact elem_prerel_no_dot [] (by simp) t ht s)]
    exact fromRemainder_prerel M m p s [] t (by simp) ht
  · intro n hn
    have hN : truthyNat (some n) = true := by simp [truthyNat, hn]
    constructor
    · have hchars : (SemanticVersion.release_string ⟨M, m, p, none, none, some n, none⟩).data
          = natDigits M ++ dotJoinTail [natDigits m, natDigits p,
              'd' :: 'e' :: 'v' :: natDigits n] := by
        simp [SemanticVersion.release_string, SemanticVersion._long_version,
          SemanticVersion.briefChars, truthyStr, hN, dotJoinTail, pyOptNatStr,
          pyNatStr_eq_natDigits, data_mk]
      show fromPipChars _ = _
      rw [hchars, fromPipChars_eq M m p ['d' :: 'e' :: 'v' :: natDigits n] (by
        intro x hx
        simp only [List.mem_singleton] at hx
        subst hx
        intro c hc
        rcases List.mem_cons.mp hc with rfl | hc
        · decide
        rcases List.mem_cons.mp hc with rfl | hc
        · decide
        rcases List.mem_cons.mp hc with rfl | hc
        · decide
        · exact natDigits_no_dot n c hc)]
      rw [fromRemainder_dev M m p n []]
    · intro hs hsne hsnd
      have hEF : hs.isEmpty = false := by
        cases he : hs.isEmpty
        · rfl
        · rw [String.isEmpty_iff] at he
          subst he
          exact absurd rfl hsne
      have hE : truthyStr (some hs) = true := by simp [truthyStr, hEF]
      have hchars : (SemanticVersion.release_string ⟨M, m, p, none, none, some n, some hs⟩).data
          = natDigits M ++ dotJoinTail [natDigits m, natDigits p,
              'd' :: 'e' :: 'v' :: natDigits n, 'g' :: hs.data] := by
        simp [SemanticVersion.release_string, SemanticVersion._long_version,
          SemanticVersion.briefChars, truthyStr, hEF, hN, dotJoinTail, pyOptNatStr,
          pyOptStrStr, pyNatStr_eq_natDigits, data_mk]
      show fromPipChars _ = _
      rw [hchars, fromPipChars_eq M m p ['d' :: 'e' :: 'v' :: natDigits n, 'g' :: hs.data] (by
        intro x hx
        simp only [List.mem_cons, List.mem_singleton] at hx
        rcases hx with rfl | rfl | hx
        · intro c hc
          rcases List.mem_cons.mp hc with rfl | hc
          · decide
          rcases List.mem_cons.mp hc with rfl | hc
          · decide
          rcases List.mem_cons.mp hc with rfl | hc
          · decide
          · exact natDigits_no_dot n c hc
        · intro c hc
          rcases List.mem_cons.mp hc with rfl | hc
          · decide
          · exact hsnd c hc
        · exact absurd hx (List.not_mem_nil x))]
      rw [fromRemainder_dev M m p n ['g' :: hs.data]]
      rfl

theorem c1_witness :
    SemanticVersion.from_pip_string "1.3.0.0a1"
        = .ok ⟨1, 3, 0, some "a", some 1, none, none⟩
    ∧ SemanticVersion.from_pip_string "0.10.1.dev3.g83bef74"
        = .ok ⟨0, 10, 1, none, none, some 3, some "83bef74"⟩
    ∧ SemanticVersion.from_pip_string "1.3.0" = .ok ⟨1, 3, 0, none, none, none, none⟩ :=
  ⟨(c1_roundtrip 1 3 0).2.1 "a" 1 (by decide),
   ((c1_roundtrip 0 10 1).2.2 3 (by decide)).2 "83bef74" (by decide) (by decide),
   (c1_roundtrip 1 3 0).1⟩
